import Mathlib

/-!
Verification of the AST / span-algebra core of `maud_macros/src/ast.rs`.

The source operates on `proc_macro2::Span` (an opaque token position) and
`proc_macro_error::SpanRange` (a pair of a first and a last `Span`, with
`join_range` keeping the left operand's `first` and the right operand's
`last`, `single_span` duplicating one span, and `call_site` the sentinel).
We model a token position as a half-open character interval `lo..hi` so that
containment claims can be stated, and `SpanRange` exactly as the pair it is
in the dependency.
-/

namespace Maud

/-- A single token position: the character interval a token occupies.
Models `proc_macro2::Span`; the call-site sentinel is a designated value. -/
structure Span where
  lo : Nat
  hi : Nat
deriving DecidableEq, Repr

/-- The distinguished call-site position, `Span::call_site()`. -/
def Span.callSiteSpan : Span := ⟨0, 0⟩

/-- The `proc_macro_error::SpanRange` type: a pair of first and last token positions. -/
structure SpanRange where
  first : Span
  last : Span
deriving DecidableEq, Repr

/-- Models `SpanRange::single_span`: both endpoints are the one given span. -/
def SpanRange.single_span (s : Span) : SpanRange := ⟨s, s⟩

/-- Models `SpanRange::call_site`: the sentinel range at the call site. -/
def SpanRange.call_site : SpanRange := SpanRange.single_span Span.callSiteSpan

/-- Models `SpanRange::join_range`: keeps the left operand's `first` and the right
operand's `last`, as the dependency implements it. -/
def SpanRange.join_range (a b : SpanRange) : SpanRange := ⟨a.first, b.last⟩

/-- Start character position covered by a `SpanRange`. -/
def SpanRange.start (r : SpanRange) : Nat := r.first.lo

/-- End character position covered by a `SpanRange`. -/
def SpanRange.stop (r : SpanRange) : Nat := r.last.hi

/-- Containment: `r.contains c` says the range `r` encloses both endpoints of `c`. -/
def SpanRange.contains (r c : SpanRange) : Prop :=
  r.start ≤ c.start ∧ c.stop ≤ r.stop

instance (r c : SpanRange) : Decidable (r.contains c) :=
  inferInstanceAs (Decidable (_ ∧ _))

/-- Source order: `a.le b` says `a` starts and ends no later than `b` (source order). -/
def SpanRange.le (a b : SpanRange) : Prop :=
  a.start ≤ b.start ∧ a.stop ≤ b.stop

instance (a b : SpanRange) : Decidable (a.le b) :=
  inferInstanceAs (Decidable (_ ∧ _))

/-- A `proc_macro2::TokenTree`: its canonical text and its position. -/
structure TokenTree where
  text : String
  span : Span
deriving DecidableEq, Repr

/-- A `proc_macro2::TokenStream`, as the ordered list of its token trees. -/
abbrev TokenStream := List TokenTree

/-- Models `join_ranges` from `ast.rs`: the empty sequence falls back to the
call-site sentinel; otherwise the first element is joined with the last
element of the rest (or with itself when there is no rest). -/
def join_ranges (ranges : List SpanRange) : SpanRange :=
  match ranges with
  | [] => SpanRange.call_site
  | first :: rest => first.join_range (rest.getLast?.getD first)

/-- Models `span_tokens` from `ast.rs`: join of the single-span ranges of the run. -/
def span_tokens (tokens : TokenStream) : SpanRange :=
  join_ranges (tokens.map (fun s => SpanRange.single_span s.span))

/-- Models `name_to_string` from `ast.rs`: concatenation of each token's text. -/
def name_to_string (name : TokenStream) : String :=
  String.join (name.map (fun token => token.text))

/-- The `Toggler` struct: an opaque condition token-run plus its captured span. -/
structure Toggler where
  cond : TokenStream
  cond_span : SpanRange
deriving DecidableEq, Repr

/-- Models `Toggler::span`: the captured condition span. -/
def Toggler.span (t : Toggler) : SpanRange := t.cond_span

mutual

/-- The `Markup` enum of `ast.rs`. -/
inductive Markup where
  | ParseError (span : SpanRange)
  | Block (block : Block)
  | Literal (content : String) (span : SpanRange)
  | Symbol (symbol : TokenStream)
  | Splice (expr : TokenStream) (outer_span : SpanRange)
  | Element (name : TokenStream) (attrs : List Attr) (body : ElementBody)
  | Let (at_span : SpanRange) (tokens : TokenStream)
  | Special (segments : List Special)
  | Match (at_span : SpanRange) (head : TokenStream) (arms : List MatchArm)
      (arms_span : SpanRange)
  | Patrial (body : TokenStream)
  | Builder (tokens : TokenStream)

/-- The `Attr` enum of `ast.rs`. -/
inductive Attr where
  | Class (dot_span : SpanRange) (name : Markup) (toggler : Option Toggler)
  | Id (hash_span : SpanRange) (name : Markup)
  | Named (named_attr : NamedAttr)
  | Event (name : TokenStream) (ty : TokenStream)
  | Value (name : TokenStream) (attr_type : AttrType)

/-- The `ElementBody` enum of `ast.rs`. -/
inductive ElementBody where
  | Void (semi_span : SpanRange)
  | Block (block : Block)

/-- The `Block` struct of `ast.rs`: child markups plus the stored outer span. -/
inductive Block where
  | mk (markups : List Markup) (outer_span : SpanRange)

/-- The `Special` struct of `ast.rs`: keyword span, head run, body block. -/
inductive Special where
  | mk (at_span : SpanRange) (head : TokenStream) (body : Block)

/-- The `MatchArm` struct of `ast.rs`: head pattern run plus body block. -/
inductive MatchArm where
  | mk (head : TokenStream) (body : Block)

/-- The `NamedAttr` struct of `ast.rs`: name run plus value kind. -/
inductive NamedAttr where
  | mk (name : TokenStream) (attr_type : AttrType)

/-- The `AttrType` enum of `ast.rs`. -/
inductive AttrType where
  | Normal (value : Markup)
  | Event (ty : TokenStream)
  | Optional (toggler : Toggler)
  | Empty (toggler : Option Toggler)

end

/-- Child markups of a `Block`. -/
def Block.markups : Block → List Markup
  | .mk m _ => m

/-- Stored outer span of a `Block`. -/
def Block.outer_span : Block → SpanRange
  | .mk _ s => s

/-- Models `Block::span`: the stored outer span, never recomputed from children. -/
def Block.span (b : Block) : SpanRange := b.outer_span

/-- Models `ElementBody::span`: the self-closing marker's span, or the block's. -/
def ElementBody.span : ElementBody → SpanRange
  | .Void semi_span => semi_span
  | .Block block => block.span

/-- Models `Special::span`: keyword span joined with the body block's span. -/
def Special.span : Special → SpanRange
  | .mk at_span _ body => at_span.join_range body.span

/-- Models `Markup::span`, arm for arm from `ast.rs`. -/
def Markup.span : Markup → SpanRange
  | .ParseError span => span
  | .Block block => block.span
  | .Literal _ span => span
  | .Symbol symbol => span_tokens symbol
  | .Splice _ outer_span => outer_span
  | .Element name _ body => (span_tokens name).join_range body.span
  | .Let at_span tokens => at_span.join_range (span_tokens tokens)
  | .Special segments => join_ranges (segments.map Special.span)
  | .Match at_span _ _ arms_span => at_span.join_range arms_span
  | .Patrial body => span_tokens body
  | .Builder tokens => span_tokens tokens

/-- Models `AttrType::span`: absent exactly for `Empty` without a toggler. -/
def AttrType.span : AttrType → Option SpanRange
  | .Normal value => some value.span
  | .Event ty => some (span_tokens ty)
  | .Optional toggler => some toggler.span
  | .Empty toggler => toggler.map Toggler.span

/-- Name run of a `NamedAttr`. -/
def NamedAttr.name : NamedAttr → TokenStream
  | .mk n _ => n

/-- Value kind of a `NamedAttr`. -/
def NamedAttr.attr_type : NamedAttr → AttrType
  | .mk _ t => t

/-- Models `NamedAttr::span`: name span joined with the value kind's span when
present, else the name span alone. -/
def NamedAttr.span : NamedAttr → SpanRange
  | .mk name attr_type =>
    let name_span := span_tokens name
    match attr_type.span with
    | some attr_type_span => name_span.join_range attr_type_span
    | none => name_span

/-- Models `Attr::span`, arm for arm from `ast.rs`. -/
def Attr.span : Attr → SpanRange
  | .Class dot_span name toggler =>
    let dot_name_span := dot_span.join_range name.span
    match toggler with
    | some t => dot_name_span.join_range t.cond_span
    | none => dot_name_span
  | .Id hash_span name => hash_span.join_range name.span
  | .Named named_attr => named_attr.span
  | .Event name ty => (span_tokens name).join_range (span_tokens ty)
  | .Value name attr_type =>
    let name_span := span_tokens name
    match attr_type.span with
    | some attr_type_span => name_span.join_range attr_type_span
    | none => name_span

/-- Degenerate range at the first endpoint of a range (e.g. an opening brace). -/
def SpanRange.fstPoint (r : SpanRange) : SpanRange := SpanRange.single_span r.first

/-- Degenerate range at the last endpoint of a range (e.g. a closing brace). -/
def SpanRange.lstPoint (r : SpanRange) : SpanRange := SpanRange.single_span r.last

/-- The single-span ranges of the tokens of a run, in order. -/
def tokenSpans (ts : TokenStream) : List SpanRange :=
  ts.map (fun s => SpanRange.single_span s.span)

/-- Source-order pieces of one match arm: its head tokens then its body. -/
def MatchArm.pieces : MatchArm → List SpanRange
  | .mk head body => tokenSpans head ++ [body.span]

/-- The source-order layout of a markup node: the spans of its child pieces
in the order they occur in the source, with a stored bounding span
contributing its two endpoints as the outermost pieces (the delimiters). -/
def Markup.layout : Markup → List SpanRange
  | .ParseError _ => []
  | .Block b => b.outer_span.fstPoint :: (b.markups.map Markup.span ++ [b.outer_span.lstPoint])
  | .Literal _ _ => []
  | .Symbol symbol => tokenSpans symbol
  | .Splice expr outer_span => outer_span.fstPoint :: (tokenSpans expr ++ [outer_span.lstPoint])
  | .Element name attrs body => span_tokens name :: (attrs.map Attr.span ++ [body.span])
  | .Let at_span tokens => at_span :: (tokenSpans tokens ++ [(span_tokens tokens).lstPoint])
  | .Special segments => segments.map Special.span
  | .Match at_span head arms arms_span =>
      at_span ::
        ((tokenSpans head ++ arms_span.fstPoint :: arms.flatMap MatchArm.pieces) ++
          [arms_span.lstPoint])
  | .Patrial body => tokenSpans body
  | .Builder tokens => tokenSpans tokens

/-- The source-order layout of an attribute node. -/
def Attr.layout : Attr → List SpanRange
  | .Class dot_span name toggler =>
    match toggler with
    | some t => [dot_span, name.span, t.cond_span]
    | none => [dot_span, name.span]
  | .Id hash_span name => [hash_span, name.span]
  | .Named named_attr => span_tokens named_attr.name :: named_attr.attr_type.span.toList
  | .Event name ty => [span_tokens name, span_tokens ty]
  | .Value name attr_type => span_tokens name :: attr_type.span.toList

/-- The source-order layout of a block: opening delimiter endpoint, child
markup spans, closing delimiter endpoint. -/
def Block.layout (b : Block) : List SpanRange :=
  b.outer_span.fstPoint :: (b.markups.map Markup.span ++ [b.outer_span.lstPoint])

/-- The source-order layout of a special segment. -/
def Special.layout : Special → List SpanRange
  | .mk at_span head body => at_span :: (tokenSpans head ++ [body.span])

theorem SpanRange.le_refl (a : SpanRange) : a.le a :=
  ⟨Nat.le_refl _, Nat.le_refl _⟩

theorem span_tokens_eq_join_tokenSpans (ts : TokenStream) :
    span_tokens ts = join_ranges (tokenSpans ts) := rfl

theorem join_ranges_cons_concat (x y : SpanRange) (l : List SpanRange) :
    join_ranges (x :: (l ++ [y])) = x.join_range y := by
  show x.join_range ((l ++ [y]).getLast?.getD x) = x.join_range y
  rw [List.getLast?_concat, Option.getD_some]

theorem pairwise_le_getLast (l : List SpanRange) (hne : l ≠ [])
    (h : l.Pairwise SpanRange.le) : ∀ c ∈ l, SpanRange.le c (l.getLast hne) := by
  intro c hc
  have e : l.dropLast ++ [l.getLast hne] = l := List.dropLast_append_getLast hne
  rw [← e] at h hc
  rw [List.pairwise_append] at h
  rcases List.mem_append.mp hc with hd | hl
  · exact h.2.2 c hd _ (List.mem_singleton.mpr rfl)
  · rw [List.mem_singleton] at hl
    subst hl
    exact SpanRange.le_refl _

/-- Workhorse: when a list of ranges is in source order (pairwise `le`),
its `join_ranges` contains every element of the list. -/
theorem join_ranges_contains (l : List SpanRange) (h : l.Pairwise SpanRange.le) :
    ∀ c ∈ l, (join_ranges l).contains c := by
  match l with
  | [] => intro c hc; exact absurd hc (List.not_mem_nil c)
  | a :: rest =>
    intro c hc
    have hne : a :: rest ≠ [] := List.cons_ne_nil a rest
    have hle_last : SpanRange.le c ((a :: rest).getLast hne) :=
      pairwise_le_getLast (a :: rest) hne h c hc
    have hjoin : join_ranges (a :: rest) = a.join_range ((a :: rest).getLast hne) := by
      cases rest with
      | nil => rfl
      | cons b r =>
        have h2 : (b :: r) ≠ [] := List.cons_ne_nil b r
        show a.join_range ((b :: r).getLast?.getD a) = _
        rw [List.getLast?_eq_getLast (b :: r) h2, Option.getD_some, List.getLast_cons h2]
    rw [hjoin]
    rcases List.mem_cons.mp hc with rfl | hcrest
    · exact ⟨Nat.le_refl _, hle_last.2⟩
    · exact ⟨((List.pairwise_cons.mp h).1 c hcrest).1, hle_last.2⟩

theorem foldl_append_init (l : List String) :
    ∀ a : String, l.foldl (fun r s => r ++ s) a = a ++ l.foldl (fun r s => r ++ s) "" := by
  induction l with
  | nil => intro a; exact (String.append_empty a).symm
  | cons x xs ih =>
    intro a
    show xs.foldl _ (a ++ x) = a ++ xs.foldl _ ("" ++ x)
    rw [ih (a ++ x), ih ("" ++ x), String.empty_append, String.append_assoc]

theorem name_to_string_cons (t : TokenTree) (ts : TokenStream) :
    name_to_string (t :: ts) = t.text ++ name_to_string ts := by
  show (ts.map (fun token => token.text)).foldl (fun r s => r ++ s) ("" ++ t.text) =
    t.text ++ name_to_string ts
  rw [String.empty_append, foldl_append_init]
  rfl

/-- C1: `join_ranges` returns the call-site sentinel on the empty sequence;
on any longer sequence it returns the join of the first and the last
elements only, whatever the middle elements are; and on a one-element
sequence it returns the join of the element with itself, which is the
element back. -/
theorem joinRanges_first_last_spec :
    join_ranges [] = SpanRange.call_site ∧
    (∀ (a b : SpanRange) (mids : List SpanRange),
      join_ranges (a :: (mids ++ [b])) = a.join_range b) ∧
    (∀ s : SpanRange, join_ranges [s] = s.join_range s ∧ s.join_range s = s) :=
  ⟨rfl, fun a b mids => join_ranges_cons_concat a b mids, fun _ => ⟨rfl, rfl⟩⟩

/-- C2: `span_tokens` returns the call-site sentinel on the empty run, the
join of a lone token's position with itself on a singleton run, and on any
longer run the join of the first and last tokens' individual positions,
whatever the tokens in between are. -/
theorem spanTokens_endpoints_spec :
    span_tokens [] = SpanRange.call_site ∧
    (∀ t : TokenTree, span_tokens [t] =
      (SpanRange.single_span t.span).join_range (SpanRange.single_span t.span)) ∧
    (∀ (t : TokenTree) (mids : TokenStream) (u : TokenTree),
      span_tokens (t :: (mids ++ [u])) =
        (SpanRange.single_span t.span).join_range (SpanRange.single_span u.span)) := by
  refine ⟨rfl, fun t => rfl, ?_⟩
  intro t mids u
  show join_ranges ((t :: (mids ++ [u])).map (fun s => SpanRange.single_span s.span)) = _
  rw [List.map_cons, List.map_append, List.map_singleton]
  exact join_ranges_cons_concat _ _ _

/-- C4: `AttrType::span` is `none` exactly on `Empty` with no toggler; the
`Normal`, `Event` and `Optional` variants, and `Empty` with a toggler,
always yield a present span. -/
theorem attrType_span_absent_iff_spec :
    (∀ t : AttrType, t.span = none ↔ t = AttrType.Empty none) ∧
    (∀ v : Markup, (AttrType.Normal v).span.isSome = true) ∧
    (∀ ty : TokenStream, (AttrType.Event ty).span.isSome = true) ∧
    (∀ tg : Toggler, (AttrType.Optional tg).span.isSome = true) ∧
    (∀ tg : Toggler, (AttrType.Empty (some tg)).span.isSome = true) := by
  refine ⟨?_, fun _ => rfl, fun _ => rfl, fun _ => rfl, fun _ => rfl⟩
  intro t
  constructor
  · intro h
    cases t with
    | Normal v => exact Option.noConfusion h
    | Event ty => exact Option.noConfusion h
    | Optional tg => exact Option.noConfusion h
    | Empty tg =>
      cases tg with
      | none => rfl
      | some tg2 => exact Option.noConfusion h
  · intro h
    subst h
    rfl

/-- C4 witness: the one absent case, evaluated at `Empty` with no toggler. -/
theorem attrType_span_absent_iff_spec_witness :
    (AttrType.Empty none).span = none ∧ AttrType.Empty none = AttrType.Empty none :=
  ⟨rfl, (attrType_span_absent_iff_spec.1 (AttrType.Empty none)).mp rfl⟩

/-- C5: when the value kind's span is absent, `NamedAttr::span` is exactly
the name run's span; when it is present, it is the join of the name run's
span with it. -/
theorem namedAttr_fallback_spec :
    (∀ (name : TokenStream) (t : AttrType), t.span = none →
      (NamedAttr.mk name t).span = span_tokens name) ∧
    (∀ (name : TokenStream) (t : AttrType) (s : SpanRange), t.span = some s →
      (NamedAttr.mk name t).span = (span_tokens name).join_range s) := by
  constructor
  · intro name t h
    simp only [NamedAttr.span, h]
  · intro name t s h
    simp only [NamedAttr.span, h]

/-- C7: an `Element`'s span is the join of the name run's span with the
body's span, where the body's span is the self-closing marker's span for a
void body and the block's span for a block body; the attribute list never
contributes. -/
theorem element_span_spec :
    (∀ (name : TokenStream) (attrs : List Attr) (body : ElementBody),
      (Markup.Element name attrs body).span = (span_tokens name).join_range body.span) ∧
    (∀ s : SpanRange, (ElementBody.Void s).span = s) ∧
    (∀ b : Block, (ElementBody.Block b).span = b.span) ∧
    (∀ (name : TokenStream) (attrs1 attrs2 : List Attr) (body : ElementBody),
      (Markup.Element name attrs1 body).span = (Markup.Element name attrs2 body).span) :=
  ⟨fun _ _ _ => rfl, fun _ => rfl, fun _ => rfl, fun _ _ _ _ => rfl⟩

/-- C8: `name_to_string` is pure in-order concatenation of each token's
canonical text: empty run gives the empty string, a singleton run gives
that token's text, splitting the run splits the output, and the output
length is exactly the sum of the token text lengths (nothing inserted or
dropped). -/
theorem nameToString_concat_spec :
    name_to_string [] = "" ∧
    (∀ t : TokenTree, name_to_string [t] = t.text) ∧
    (∀ xs ys : TokenStream,
      name_to_string (xs ++ ys) = name_to_string xs ++ name_to_string ys) ∧
    (∀ ts : TokenStream,
      (name_to_string ts).length = (ts.map (fun t => t.text.length)).sum) := by
  refine ⟨rfl, ?_, ?_, ?_⟩
  · intro t
    rw [name_to_string_cons]
    exact String.append_empty t.text
  · intro xs ys
    induction xs with
    | nil => exact (String.empty_append (name_to_string ys)).symm
    | cons x xs ih =>
      rw [List.cons_append, name_to_string_cons, ih, name_to_string_cons,
        String.append_assoc]
  · intro ts
    induction ts with
    | nil => rfl
    | cons t ts ih =>
      rw [name_to_string_cons, String.length_append, List.map_cons, List.sum_cons, ih]

/-- C9: a `Symbol`, `Patrial` or `Builder` markup over an empty token-run
still answers its span: the call-site sentinel, via the empty-run fallback
of the span algebra. -/
theorem emptyRun_sentinel_spec :
    (Markup.Symbol []).span = SpanRange.call_site ∧
    (Markup.Patrial []).span = SpanRange.call_site ∧
    (Markup.Builder []).span = SpanRange.call_site :=
  ⟨rfl, rfl, rfl⟩

/-- C10: the `Value` arm of `Attr::span` computes exactly what
`NamedAttr::span` computes on the same name run and value kind, so the two
code paths agree (also through the `Named` wrapping). -/
theorem valueArm_eq_namedAttr_spec (name : TokenStream) (attr_type : AttrType) :
    (Attr.Value name attr_type).span = (NamedAttr.mk name attr_type).span ∧
    (Attr.Value name attr_type).span = (Attr.Named (NamedAttr.mk name attr_type)).span :=
  ⟨rfl, rfl⟩

theorem block_span_eq_join_layout (b : Block) : b.span = join_ranges b.layout := by
  show b.outer_span =
    join_ranges (b.outer_span.fstPoint :: (b.markups.map Markup.span ++ [b.outer_span.lstPoint]))
  rw [join_ranges_cons_concat]
  rfl

theorem special_span_eq_join_layout (s : Special) : s.span = join_ranges s.layout := by
  cases s with
  | mk at_span head body =>
    show at_span.join_range body.span =
      join_ranges (at_span :: (tokenSpans head ++ [body.span]))
    rw [join_ranges_cons_concat]

theorem attr_span_eq_join_layout (a : Attr) : a.span = join_ranges a.layout := by
  cases a with
  | Class dot_span name toggler =>
    cases toggler with
    | none => rfl
    | some t => rfl
  | Id hash_span name => rfl
  | Named named_attr =>
    cases named_attr with
    | mk name attr_type =>
      cases h : attr_type.span with
      | none =>
        simp only [Attr.span, NamedAttr.span, Attr.layout, NamedAttr.name,
          NamedAttr.attr_type, h, Option.toList]
        rfl
      | some s =>
        simp only [Attr.span, NamedAttr.span, Attr.layout, NamedAttr.name,
          NamedAttr.attr_type, h, Option.toList]
        rfl
  | Event name ty => rfl
  | Value name attr_type =>
    cases h : attr_type.span with
    | none =>
      simp only [Attr.span, Attr.layout, h, Option.toList]
      rfl
    | some s =>
      simp only [Attr.span, Attr.layout, h, Option.toList]
      rfl

theorem markup_layout_contains (m : Markup) (h : m.layout.Pairwise SpanRange.le) :
    ∀ c ∈ m.layout, m.span.contains c := by
  have he : m.layout = [] ∨ m.span = join_ranges m.layout := by
    cases m with
    | ParseError sp => exact Or.inl rfl
    | Literal s sp => exact Or.inl rfl
    | Block b =>
      refine Or.inr ?_
      show b.outer_span = join_ranges
        (b.outer_span.fstPoint :: (b.markups.map Markup.span ++ [b.outer_span.lstPoint]))
      rw [join_ranges_cons_concat]
      rfl
    | Symbol s => exact Or.inr rfl
    | Splice e o =>
      refine Or.inr ?_
      show o = join_ranges (o.fstPoint :: (tokenSpans e ++ [o.lstPoint]))
      rw [join_ranges_cons_concat]
      rfl
    | Element nm attrs body =>
      refine Or.inr ?_
      show (span_tokens nm).join_range body.span =
        join_ranges (span_tokens nm :: (attrs.map Attr.span ++ [body.span]))
      rw [join_ranges_cons_concat]
    | Let at_span tokens =>
      refine Or.inr ?_
      show at_span.join_range (span_tokens tokens) =
        join_ranges (at_span :: (tokenSpans tokens ++ [(span_tokens tokens).lstPoint]))
      rw [join_ranges_cons_concat]
      rfl
    | Special segs => exact Or.inr rfl
    | Match a hd arms asp =>
      refine Or.inr ?_
      show a.join_range asp = join_ranges
        (a :: ((tokenSpans hd ++ asp.fstPoint :: arms.flatMap MatchArm.pieces) ++
          [asp.lstPoint]))
      rw [join_ranges_cons_concat]
      rfl
    | Patrial b => exact Or.inr rfl
    | Builder t => exact Or.inr rfl
  rcases he with he | he
  · rw [he]
    intro c hc
    exact absurd hc (List.not_mem_nil c)
  · rw [he]
    exact join_ranges_contains _ h

theorem attr_layout_contains (a : Attr) (h : a.layout.Pairwise SpanRange.le) :
    ∀ c ∈ a.layout, a.span.contains c := by
  rw [attr_span_eq_join_layout]
  exact join_ranges_contains _ h

theorem block_layout_contains (b : Block) (h : b.layout.Pairwise SpanRange.le) :
    ∀ c ∈ b.layout, b.span.contains c := by
  rw [block_span_eq_join_layout]
  exact join_ranges_contains _ h

theorem special_layout_contains (s : Special) (h : s.layout.Pairwise SpanRange.le) :
    ∀ c ∈ s.layout, s.span.contains c := by
  rw [special_span_eq_join_layout]
  exact join_ranges_contains _ h

/-- C3: for every composite node — markup, attribute, block or special
segment — whose child pieces lie in source order (the stored bounding
spans contributing their delimiter endpoints), the node's computed span
contains the start and end of every child piece's span. -/
theorem span_containment_spec :
    (∀ m : Markup, m.layout.Pairwise SpanRange.le → ∀ c ∈ m.layout, m.span.contains c) ∧
    (∀ a : Attr, a.layout.Pairwise SpanRange.le → ∀ c ∈ a.layout, a.span.contains c) ∧
    (∀ b : Block, b.layout.Pairwise SpanRange.le → ∀ c ∈ b.layout, b.span.contains c) ∧
    (∀ s : Special, s.layout.Pairwise SpanRange.le → ∀ c ∈ s.layout, s.span.contains c) :=
  ⟨markup_layout_contains, attr_layout_contains, block_layout_contains,
    special_layout_contains⟩

/-- A concrete element `div #bar { }` with name, one id attribute and a
block body, in source order. -/
def elemW : Markup :=
  Markup.Element [⟨"div", ⟨0, 3⟩⟩]
    [Attr.Id ⟨⟨4, 5⟩, ⟨4, 5⟩⟩ (Markup.Literal "bar" ⟨⟨5, 8⟩, ⟨5, 8⟩⟩)]
    (ElementBody.Block (Block.mk [] ⟨⟨9, 10⟩, ⟨14, 15⟩⟩))

/-- C3 witness: the containment theorem evaluated on a concrete element. -/
theorem span_containment_spec_witness :
    (elemW.layout.Pairwise SpanRange.le) ∧
    ∀ c ∈ elemW.layout, elemW.span.contains c :=
  ⟨by decide, span_containment_spec.1 elemW (by decide)⟩

/-- Sample token for witnesses. -/
def tokA : TokenTree := ⟨"a", ⟨10, 11⟩⟩

/-- Sample toggler for witnesses. -/
def togC : Toggler := ⟨[⟨"c", ⟨20, 23⟩⟩], ⟨⟨19, 20⟩, ⟨23, 24⟩⟩⟩

/-- C5 witness: the fallback and the join case, each on concrete data. -/
theorem namedAttr_fallback_spec_witness :
    (NamedAttr.mk [tokA] (AttrType.Empty none)).span = span_tokens [tokA] ∧
    (NamedAttr.mk [tokA] (AttrType.Optional togC)).span =
      (span_tokens [tokA]).join_range togC.cond_span :=
  ⟨namedAttr_fallback_spec.1 [tokA] (AttrType.Empty none) rfl,
   namedAttr_fallback_spec.2 [tokA] (AttrType.Optional togC) togC.cond_span rfl⟩

/-- C6: a class attribute with a toggler reports the join of the dot
marker, the name's span and the toggler's condition span; without a
toggler just the join of the dot marker and the name's span; an id
attribute reports the join of the hash marker and the name's span; and
when the condition ends strictly after the dot-plus-name range, the
toggler-extended span strictly contains the dot-plus-name span alone. -/
theorem class_id_toggler_span_spec :
    (∀ (d : SpanRange) (n : Markup) (t : Toggler),
      (Attr.Class d n (some t)).span = (d.join_range n.span).join_range t.cond_span) ∧
    (∀ (d : SpanRange) (n : Markup),
      (Attr.Class d n none).span = d.join_range n.span) ∧
    (∀ (h : SpanRange) (n : Markup), (Attr.Id h n).span = h.join_range n.span) ∧
    (∀ (d : SpanRange) (n : Markup) (t : Toggler),
      (d.join_range n.span).stop < t.cond_span.stop →
        (Attr.Class d n (some t)).span.contains (d.join_range n.span) ∧
        ¬ (d.join_range n.span).contains (Attr.Class d n (some t)).span) := by
  refine ⟨fun _ _ _ => rfl, fun _ _ => rfl, fun _ _ => rfl, ?_⟩
  intro d n t hlt
  constructor
  · exact ⟨Nat.le_refl _, Nat.le_of_lt hlt⟩
  · intro hcon
    exact absurd hcon.2 (Nat.not_le_of_lt hlt)

/-- Sample dot marker span for the C6 witness. -/
def dotW : SpanRange := ⟨⟨0, 1⟩, ⟨0, 1⟩⟩

/-- Sample class-name markup for the C6 witness. -/
def nameW : Markup := Markup.Literal "foo" ⟨⟨1, 2⟩, ⟨3, 4⟩⟩

/-- Sample toggler for the C6 witness, ending after the name. -/
def togW : Toggler := ⟨[], ⟨⟨5, 6⟩, ⟨8, 9⟩⟩⟩

/-- C6 witness: strict containment evaluated on a concrete `.foo[cond]`. -/
theorem class_id_toggler_span_spec_witness :
    (dotW.join_range nameW.span).stop < togW.cond_span.stop ∧
    ((Attr.Class dotW nameW (some togW)).span.contains (dotW.join_range nameW.span) ∧
      ¬ (dotW.join_range nameW.span).contains (Attr.Class dotW nameW (some togW)).span) :=
  ⟨by decide, class_id_toggler_span_spec.2.2.2 dotW nameW togW (by decide)⟩

end Maud
